import Mathlib

/-!
# Verification of the pokemon CRUD backend

Shallow embedding of the Express/Mongoose backend (`connect.js`, main server
file): JSON-ish request values, the express-validator chains declared on each
route, and the six resource handlers.  The document store is modelled as a
list of documents in insertion order (MongoDB natural order for an
unsorted `find`/`findOne`).

Conventions:
* `JVal` models the JSON values appearing in request bodies and stored
  documents (JS `undefined` is `jundefined`, used for absent fields).
* Machine numbers are `Int`/`Nat` (all quantities here are small integers).
* Each handler returns `(response, new store, list of store operations
  issued)`; the operation list supports statements about what touches the
  store.
-/

namespace PokeApi

/-- JSON-ish values: the dynamic values of request bodies and stored
documents.  `jundefined` stands for JavaScript `undefined` (absent field). -/
inductive JVal where
  | jnull
  | jundefined
  | jbool (b : Bool)
  | jint (n : Int)
  | jstr (s : String)
  | jarr (xs : List JVal)
  | jobj (fs : List (String × JVal))
deriving Repr

/-- Field lookup in an association list of object fields (first hit wins,
like JS objects where keys are unique anyway). -/
def getFieldFs : List (String × JVal) → String → JVal
  | [], _ => .jundefined
  | (k, v) :: rest, key => if k = key then v else getFieldFs rest key

/-- `value[key]` for objects; anything else yields `undefined`
(express-validator's field lookup never throws, it resolves missing or
non-object parents to `undefined`). -/
def getField : JVal → String → JVal
  | .jobj fs, key => getFieldFs fs key
  | _, _ => .jundefined

/-- Dotted-path lookup, e.g. `body('name.english')`. -/
def getPath : JVal → List String → JVal
  | v, [] => v
  | v, k :: ks => getPath (getField v k) ks

/-- JavaScript truthiness, as used by `...(name && { name })` in the
update handler. -/
def truthy : JVal → Bool
  | .jnull => false
  | .jundefined => false
  | .jbool b => b
  | .jint n => n != 0
  | .jstr s => !s.data.isEmpty
  | .jarr _ => true
  | .jobj _ => true

/-- Does an object literally carry the key (present, possibly `null`)? -/
def hasFieldFs : List (String × JVal) → String → Bool
  | [], _ => false
  | (k, _) :: rest, key => k = key || hasFieldFs rest key

def hasField : JVal → String → Bool
  | .jobj fs, key => hasFieldFs fs key
  | _, _ => false

/-- express-validator's `toString` coercion applied to a value before the
validator.js string validators/sanitizers run: `null`/`undefined` become
`""`, numbers and booleans print, a non-empty array is coerced through its
first element, objects print as `[object Object]`. -/
def jsToString0 : JVal → String
  | .jstr s => s
  | .jnull => ""
  | .jundefined => ""
  | .jint n => toString n
  | .jbool b => if b then "true" else "false"
  | .jarr _ => "[object Object]"
  | .jobj _ => "[object Object]"

def jsToString : JVal → String
  | .jarr [] => ""
  | .jarr (x :: _) => jsToString0 x
  | v => jsToString0 v

/-- JS `String.prototype.trim` (and the express-validator `trim`
sanitizer): strip whitespace from both ends.  (List-based so that proofs
can evaluate it; Lean's `String.trim` is byte-position based.) -/
def jsTrim (s : String) : String :=
  ⟨((s.data.dropWhile Char.isWhitespace).reverse.dropWhile
      Char.isWhitespace).reverse⟩

/-- Is `pre` a prefix of `cs`? -/
def listStartsWith : List Char → List Char → Bool
  | [], _ => true
  | _ :: _, [] => false
  | p :: ps, c :: cs => p == c && listStartsWith ps cs

/-- Does `pat` occur as a contiguous run inside `cs`? -/
def hasSubList (pat cs : List Char) : Bool :=
  (List.range (cs.length + 1)).any fun i => listStartsWith pat (cs.drop i)

/-- Value of a non-empty digit string. -/
def digitsVal (cs : List Char) : Nat :=
  cs.foldl (fun a c => a * 10 + (c.toNat - 48)) 0

/-- Strip an optional leading sign, returning it as `±1`. -/
def parseSign (cs : List Char) : Int × List Char :=
  match cs with
  | [] => (1, [])
  | c :: r =>
    if c = '-' then (-1, r)
    else if c = '+' then (1, r)
    else (1, c :: r)

/-- validator.js `isInt` (decimal): the whole string is an optional sign
followed by at least one digit; returns the parsed value. -/
def isIntStr (s : String) : Option Int :=
  let p := parseSign s.data
  if p.2.isEmpty then none
  else if p.2.all Char.isDigit then some (p.1 * digitsVal p.2)
  else none

/-- JS `parseInt` (radix 10): skips leading whitespace, optional sign, then
the longest digit prefix; `none` models `NaN`. -/
def jsParseInt (s : String) : Option Int :=
  let p := parseSign (s.data.dropWhile Char.isWhitespace)
  let ds := p.2.takeWhile Char.isDigit
  if ds.isEmpty then none else some (p.1 * digitsVal ds)

/-- `parseInt(x) || d`: `NaN` and `0` both fall back to the default. -/
def jsOr (v : Option Int) (d : Int) : Int :=
  match v with
  | none => d
  | some n => if n = 0 then d else n

/-! ## Validation layer

One entry of `validationResult(req).array()` (we keep the field path and the
message; express-validator also reports location and offending value). -/

structure FieldError where
  path : String
  msg : String
deriving DecidableEq, Repr

/-- An error entry produced when a check fails. -/
def errIf (failed : Bool) (path msg : String) : List FieldError :=
  if failed then [⟨path, msg⟩] else []

/-- A required check: run the validator on the (possibly missing) value. -/
def reqErr (v : JVal) (chk : JVal → Bool) (path msg : String) : List FieldError :=
  errIf (!chk v) path msg

/-- `.optional()` with default options: the chain is skipped only when the
value is `undefined`; `null` and other falsy values are still validated. -/
def optErr (v : JVal) (chk : JVal → Bool) (path msg : String) : List FieldError :=
  match v with
  | .jundefined => []
  | _ => reqErr v chk path msg

/-- `isInt({ min: 1 })` after the `toString` coercion. -/
def chkIdVal (v : JVal) : Bool :=
  match isIntStr (jsToString v) with
  | some n => decide (1 ≤ n)
  | none => false

/-- `param('...').isInt({ min: 1 })` on a path parameter (always a string). -/
def chkIdStr (s : String) : Bool :=
  match isIntStr s with
  | some n => decide (1 ≤ n)
  | none => false

/-- `query('page').isInt({ min: 1 })`. -/
def chkPageStr (s : String) : Bool :=
  match isIntStr s with
  | some n => decide (1 ≤ n)
  | none => false

/-- `query('limit').isInt({ min: 1, max: 100 })`. -/
def chkLimitStr (s : String) : Bool :=
  match isIntStr s with
  | some n => decide (1 ≤ n) && decide (n ≤ 100)
  | none => false

/-- `.trim().isLength({ min: 1, max: 50 })` (shared by create and update for
`name.english`). -/
def chkNameRequired (v : JVal) : Bool :=
  let s := jsTrim (jsToString v)
  decide (1 ≤ s.length) && decide (s.length ≤ 50)

/-- `.trim().isLength({ max: 50 })` for the optional name languages. -/
def chkNameOpt (v : JVal) : Bool :=
  decide ((jsTrim (jsToString v)).length ≤ 50)

/-- `isArray({ min: 1, max: 2 })` (an express-validator builtin: no string
coercion, genuinely requires an array). -/
def chkTypeArr (v : JVal) : Bool :=
  match v with
  | .jarr xs => decide (1 ≤ xs.length) && decide (xs.length ≤ 2)
  | _ => false

/-- `body('type.*').trim().isLength({ min: 1, max: 20 })` on one element. -/
def chkTypeElem (v : JVal) : Bool :=
  let s := jsTrim (jsToString v)
  decide (1 ≤ s.length) && decide (s.length ≤ 20)

/-- `isInt({ min: 1, max: 255 })` for the six base stats. -/
def chkStat (v : JVal) : Bool :=
  match isIntStr (jsToString v) with
  | some n => decide (1 ≤ n) && decide (n ≤ 255)
  | none => false

/-- Modelled from the spec: `image` must be a syntactically valid URL
(`body('image').isURL()`; the validator.js implementation is an external
dependency, not part of this repository).  Faithful to its default options
on the inputs used here: rejects the empty string and strings containing
whitespace, accepts an optional explicit `http`/`https`/`ftp` scheme and
requires a host with a dot-separated top-level label (`require_tld`). -/
def isURL (s : String) : Bool :=
  let cs := s.data
  if cs.isEmpty then false
  else if cs.any (fun c => c == ' ' || c == '\t' || c == '\n' || c == '\r')
    then false
  else
    let rest : Option (List Char) :=
      if listStartsWith "http://".data cs then some (cs.drop 7)
      else if listStartsWith "https://".data cs then some (cs.drop 8)
      else if listStartsWith "ftp://".data cs then some (cs.drop 6)
      else if hasSubList "://".data cs then none
      else some cs
    match rest with
    | none => false
    | some r =>
      let host := r.takeWhile
        (fun c => !(c == '/') && !(c == '?') && !(c == '#') && !(c == ':'))
      !host.isEmpty && host.contains '.' &&
        !(listStartsWith ['.'] host) && !(listStartsWith ['.'] host.reverse)

/-- `body('image').isURL()` on create (after `toString` coercion). -/
def chkImageCreate (v : JVal) : Bool :=
  isURL (jsToString v)

/-- `body('image').optional().trim().isLength({ min: 1 })` on update: only a
non-empty (post-trim) string is required, not a URL. -/
def chkImageUpdate (v : JVal) : Bool :=
  decide (1 ≤ (jsTrim (jsToString v)).length)

/-- Wildcard expansion of `body('type.*')`: one check per array element
(express-validator expands `*` over the indices; a non-array expands to no
positions, hence no checks). -/
def typeElemErrs (b : JVal) : List FieldError :=
  match getField b "type" with
  | .jarr xs =>
    (xs.enum).flatMap
      (fun p => reqErr p.2 chkTypeElem ("type[" ++ toString p.1 ++ "]") "Invalid value")
  | _ => []

/-- Same with `.optional()` on each expanded element (update route). -/
def typeElemErrsOpt (b : JVal) : List FieldError :=
  match getField b "type" with
  | .jarr xs =>
    (xs.enum).flatMap
      (fun p => optErr p.2 chkTypeElem ("type[" ++ toString p.1 ++ "]") "Invalid value")
  | _ => []

/-- The `POST /pokemons` validator array, in declaration order. -/
def createErrors (b : JVal) : List FieldError :=
  reqErr (getField b "id") chkIdVal "id" "id must be a positive integer" ++
  (reqErr (getPath b ["name", "english"]) chkNameRequired "name.english" "Invalid value" ++
  (optErr (getPath b ["name", "french"]) chkNameOpt "name.french" "Invalid value" ++
  (optErr (getPath b ["name", "japanese"]) chkNameOpt "name.japanese" "Invalid value" ++
  (optErr (getPath b ["name", "chinese"]) chkNameOpt "name.chinese" "Invalid value" ++
  (reqErr (getField b "type") chkTypeArr "type" "Invalid value" ++
  (typeElemErrs b ++
  (reqErr (getPath b ["base", "HP"]) chkStat "base.HP" "Invalid value" ++
  (reqErr (getPath b ["base", "Attack"]) chkStat "base.Attack" "Invalid value" ++
  (reqErr (getPath b ["base", "Defense"]) chkStat "base.Defense" "Invalid value" ++
  (reqErr (getPath b ["base", "SpecialAttack"]) chkStat "base.SpecialAttack" "Invalid value" ++
  (reqErr (getPath b ["base", "SpecialDefense"]) chkStat "base.SpecialDefense" "Invalid value" ++
  (reqErr (getPath b ["base", "Speed"]) chkStat "base.Speed" "Invalid value" ++
  reqErr (getField b "image") chkImageCreate "image" "image must be a valid URL"))))))))))))

/-- The `PUT /pokemons/:id` validator array, in declaration order: the same
field checks as create made `.optional()` — except `image`, which is checked
with `.trim().isLength({ min: 1 })` instead of `.isURL()`. -/
def updateErrors (idp : String) (b : JVal) : List FieldError :=
  errIf (!chkIdStr idp) "id" "id must be a positive integer" ++
  (optErr (getPath b ["name", "english"]) chkNameRequired "name.english" "Invalid value" ++
  (optErr (getPath b ["name", "french"]) chkNameOpt "name.french" "Invalid value" ++
  (optErr (getPath b ["name", "japanese"]) chkNameOpt "name.japanese" "Invalid value" ++
  (optErr (getPath b ["name", "chinese"]) chkNameOpt "name.chinese" "Invalid value" ++
  (optErr (getField b "type") chkTypeArr "type" "Invalid value" ++
  (typeElemErrsOpt b ++
  (optErr (getPath b ["base", "HP"]) chkStat "base.HP" "Invalid value" ++
  (optErr (getPath b ["base", "Attack"]) chkStat "base.Attack" "Invalid value" ++
  (optErr (getPath b ["base", "Defense"]) chkStat "base.Defense" "Invalid value" ++
  (optErr (getPath b ["base", "SpecialAttack"]) chkStat "base.SpecialAttack" "Invalid value" ++
  (optErr (getPath b ["base", "SpecialDefense"]) chkStat "base.SpecialDefense" "Invalid value" ++
  (optErr (getPath b ["base", "Speed"]) chkStat "base.Speed" "Invalid value" ++
  optErr (getField b "image") chkImageUpdate "image" "Invalid value"))))))))))))

/-- `query('page').optional()...`: absent query parameters are skipped. -/
def pageErrs (p : Option String) : List FieldError :=
  match p with
  | none => []
  | some s => errIf (!chkPageStr s) "page" "page must be >= 1"

def limitErrs (l : Option String) : List FieldError :=
  match l with
  | none => []
  | some s => errIf (!chkLimitStr s) "limit" "limit must be between 1 and 100"

/-- `GET /pokemons` validator array. -/
def listErrors (p l : Option String) : List FieldError :=
  pageErrs p ++ limitErrs l

/-- `GET/PUT/DELETE /pokemons/:id` id-parameter validator. -/
def idParamErrs (idp : String) : List FieldError :=
  errIf (!chkIdStr idp) "id" "id must be a positive integer"

/-- `GET /pokemons/search/:name`: `.trim()` sanitizes the parameter in
place, then `.isLength({ min: 1, max: 50 })` checks the trimmed value. -/
def searchErrors (nm : String) : List FieldError :=
  errIf (!(decide (1 ≤ (jsTrim nm).length) && decide ((jsTrim nm).length ≤ 50)))
    "name" "name must be 1-50 chars"

/-! ## Regular expressions

The search handler interpolates the raw path parameter into
`new RegExp(name, 'i')`.  We model the relevant fragment of JS regexes:
literals, `.`, alternation, grouping, `*`/`+`/`?` quantifiers, character
classes, the `^`/`$` assertions and `\c` escapes (which we read as the
literal next character).  `new RegExp` throws a `SyntaxError` for patterns
such as an unmatched `(` or a dangling quantifier; the parser returns
`none` there.  Exotic constructs (lazy quantifiers, `{m,n}` counts —
literal braces per Annex B here —, class escapes) are outside the fragment;
no statement below depends on them. -/

inductive Re where
  | eps
  | chr (c : Char)
  | any
  | cls (neg : Bool) (items : List (Char × Char))
  | cat (r₁ r₂ : Re)
  | alt (r₁ r₂ : Re)
  | star (r : Re)
  | bol
  | eol
deriving Repr, DecidableEq

/-- Concatenate a parsed sequence of pieces. -/
def mkSeq (rs : List Re) : Re :=
  rs.foldr Re.cat Re.eps

/-- The characters with a special meaning in a JS regex pattern. -/
def regexSpecials : List Char :=
  ['\\', '^', '$', '.', '|', '?', '*', '+', '(', ')', '[', ']', '{', '}']

def isPlainChar (c : Char) : Bool :=
  !(regexSpecials.contains c)

/-- Body of a `[...]` class: single characters and `lo-hi` ranges, up to the
closing `]`; `none` for an unterminated class. -/
def parseClsItems (fuel : Nat) (cs : List Char) (acc : List (Char × Char)) :
    Option (List (Char × Char) × List Char) :=
  match fuel, cs with
  | 0, _ => none
  | _, [] => none
  | fuel + 1, c :: rest =>
    if c = ']' then some (acc.reverse, rest)
    else
      let one : Option (Char × List Char) :=
        if c = '\\' then
          match rest with
          | [] => none
          | e :: r2 => some (e, r2)
        else some (c, rest)
      match one with
      | none => none
      | some (lo, r2) =>
        match r2 with
        | '-' :: ']' :: r4 => some ((acc.reverse ++ [(lo, lo), ('-', '-')]), r4)
        | '-' :: hi :: r4 => parseClsItems fuel r4 ((lo, hi) :: acc)
        | _ => parseClsItems fuel r2 ((lo, lo) :: acc)

/-- A postfix quantifier, if present. -/
def applyQuant (r : Re) (cs : List Char) : Re × List Char :=
  match cs with
  | [] => (r, [])
  | c :: rest =>
    if c = '*' then (Re.star r, rest)
    else if c = '+' then (Re.cat r (Re.star r), rest)
    else if c = '?' then (Re.alt r Re.eps, rest)
    else (r, c :: rest)

mutual

/-- One atom: group, class, `.`, escape, anchor or literal character. -/
def parseAtom (fuel : Nat) (cs : List Char) : Option (Re × List Char) :=
  match fuel, cs with
  | 0, _ => none
  | _, [] => none
  | fuel + 1, c :: rest =>
    if c = '(' then
      match parseAlt fuel rest with
      | some (r, ')' :: r2) => some (r, r2)
      | _ => none
    else if c = ')' || c = '|' || c = '*' || c = '+' || c = '?' then none
    else if c = '[' then
      match rest with
      | '^' :: r2 => (parseClsItems fuel r2 []).map (fun p => (Re.cls true p.1, p.2))
      | _ => (parseClsItems fuel rest []).map (fun p => (Re.cls false p.1, p.2))
    else if c = '\\' then
      match rest with
      | [] => none
      | e :: r2 => some (Re.chr e, r2)
    else if c = '.' then some (Re.any, rest)
    else if c = '^' then some (Re.bol, rest)
    else if c = '$' then some (Re.eol, rest)
    else some (Re.chr c, rest)

/-- A (possibly empty) run of quantified atoms, stopping at `|` or `)`. -/
def parsePieces (fuel : Nat) (cs : List Char) : Option (List Re × List Char) :=
  match fuel with
  | 0 => none
  | fuel + 1 =>
    match cs with
    | [] => some ([], [])
    | c :: _ =>
      if c = ')' || c = '|' then some ([], cs)
      else
        match parseAtom fuel cs with
        | none => none
        | some (r, rest) =>
          let q := applyQuant r rest
          match parsePieces fuel q.2 with
          | none => none
          | some (rs, rest2) => some (q.1 :: rs, rest2)

/-- `|`-separated alternatives. -/
def parseAlt (fuel : Nat) (cs : List Char) : Option (Re × List Char) :=
  match fuel with
  | 0 => none
  | fuel + 1 =>
    match parsePieces fuel cs with
    | none => none
    | some (rs, rest) =>
      match rest with
      | '|' :: r2 =>
        match parseAlt fuel r2 with
        | some (r', rest') => some (Re.alt (mkSeq rs) r', rest')
        | none => none
      | _ => some (mkSeq rs, rest)

end

/-- `new RegExp(pattern, 'i')`: `none` models the thrown `SyntaxError`
(unbalanced group, dangling quantifier, trailing backslash, ...). -/
def compile (pat : String) : Option Re :=
  match parseAlt (2 * pat.length + 2) pat.data with
  | some (r, []) => some r
  | _ => none

/-- One class item against one input character, under the `i` flag. -/
def clsMatchOne (x : Char) (it : Char × Char) : Bool :=
  (it.1 ≤ x && x ≤ it.2) || (it.1 ≤ x.toLower && x.toLower ≤ it.2) ||
    (it.1 ≤ x.toUpper && x.toUpper ≤ it.2)

def clsMatch (neg : Bool) (items : List (Char × Char)) (x : Char) : Bool :=
  let m := items.any (clsMatchOne x)
  if neg then !m else m

/-- Kleene-star search loop: try the continuation at the current position,
else take one (non-empty) step of the body and iterate.  `step` receives the
position and a continuation on positions. -/
def starLoop (step : Nat → (Nat → Bool) → Bool) :
    Nat → Nat → (Nat → Bool) → Bool
  | 0, i, k => k i
  | fuel + 1, i, k =>
    k i || step i (fun j => decide (i < j) && starLoop step fuel j k)

/-- Backtracking matcher: `mat s r i k` holds when `r` matches some segment
of `s` starting at position `i` and `k` accepts the end position.  The `i`
flag is folded in by comparing lowercased characters. -/
def mat (s : List Char) : Re → Nat → (Nat → Bool) → Bool
  | .eps, i, k => k i
  | .chr c, i, k =>
    match (s.drop i).head? with
    | some x => (x.toLower == c.toLower) && k (i + 1)
    | none => false
  | .any, i, k =>
    match (s.drop i).head? with
    | some x => !(x == '\n' || x == '\r') && k (i + 1)
    | none => false
  | .cls neg its, i, k =>
    match (s.drop i).head? with
    | some x => clsMatch neg its x && k (i + 1)
    | none => false
  | .cat r₁ r₂, i, k => mat s r₁ i (fun j => mat s r₂ j k)
  | .alt r₁ r₂, i, k => mat s r₁ i k || mat s r₂ i k
  | .star r, i, k => starLoop (fun a b => mat s r a b) (s.length + 1) i k
  | .bol, i, k => decide (i = 0) && k i
  | .eol, i, k => decide (i = s.length) && k i

/-- `regex.test(s)` (unanchored): a match may start at any position. -/
def regexTest (r : Re) (s : String) : Bool :=
  (List.range (s.data.length + 1)).any fun i => mat s.data r i (fun _ => true)

/-! ## Resource handlers

The store is a list of documents in insertion order.  Each handler returns
`(response, new store, operations issued against the store)`. -/

/-- The store calls a handler can issue. -/
inductive StoreOp where
  | find
  | countDocuments
  | findOne
  | save
  | findOneAndUpdate
  | findOneAndDelete
deriving DecidableEq, Repr

/-- The pagination summary of the list response. -/
structure Pagination where
  currentPage : Int
  totalPages : Int
  totalPokemons : Int
  pokemonsPerPage : Int
deriving Repr

/-- The JSON responses the routes produce, tagged with their status codes
via `Resp.status`. -/
inductive Resp where
  | okDoc (d : JVal)
  | okList (data : List JVal) (pagination : Pagination)
  | okDeleted (message : String) (pokemon : JVal)
  | created (d : JVal)
  | badReq (details : List FieldError)
  | badReqMsg (error : String)
  | notFound
  | serverErr
deriving Repr

def Resp.status : Resp → Nat
  | .okDoc _ => 200
  | .okList _ _ => 200
  | .okDeleted _ _ => 200
  | .created _ => 201
  | .badReq _ => 400
  | .badReqMsg _ => 400
  | .notFound => 404
  | .serverErr => 500

/-- `Math.ceil(total / limit)` for a positive integer `limit`, computed in
exact integer arithmetic (the JS float division is exact at these
magnitudes); proven equal to `⌈total / limit⌉` over ℚ below. -/
def mathCeilDiv (total limit : Int) : Int :=
  (total + limit - 1) / limit

/-- `findOne({ id })` / `findOneAndUpdate({ id }, ...)` filter: the string
path parameter is cast to the schema's number type and compared with the
document's `id` field. -/
def idMatches (idp : String) (d : JVal) : Bool :=
  match getField d "id", isIntStr idp with
  | .jint m, some n => m == n
  | _, _ => false

/-- `GET /pokemons` — pagination. -/
def listHandler (st : List JVal) (page? limit? : Option String) :
    Resp × List JVal × List StoreOp :=
  let errs := listErrors page? limit?
  if errs.isEmpty then
    let page : Int := jsOr (page?.bind jsParseInt) 1
    let limit : Int := jsOr (limit?.bind jsParseInt) 20
    let skip := ((page - 1) * limit).toNat
    let data := (st.drop skip).take limit.toNat
    (.okList data
      ⟨page, mathCeilDiv st.length limit, st.length, limit⟩,
     st, [.find, .countDocuments])
  else (.badReq errs, st, [])

/-- `GET /pokemons/:id`. -/
def getHandler (st : List JVal) (idp : String) :
    Resp × List JVal × List StoreOp :=
  let errs := idParamErrs idp
  if errs.isEmpty then
    match st.find? (idMatches idp) with
    | some d => (.okDoc d, st, [.findOne])
    | none => (.notFound, st, [.findOne])
  else (.badReq errs, st, [])

/-- A Mongo regex condition on a field: only string values can match. -/
def fieldTestRe (r : Re) : JVal → Bool
  | .jstr s => regexTest r s
  | _ => false

/-- A document matches the search `$or` filter when any of the three name
fields (`chinese` is not part of the filter) is a string the regex tests
positive on. -/
def docNameMatch (r : Re) (d : JVal) : Bool :=
  fieldTestRe r (getPath d ["name", "english"]) ||
  fieldTestRe r (getPath d ["name", "french"]) ||
  fieldTestRe r (getPath d ["name", "japanese"])

/-- `GET /pokemons/search/:name`: the trimmed parameter is interpolated
into `new RegExp(name, 'i')` inside the `try` block — a `SyntaxError` is
caught and answered with a 500 before any store call. -/
def searchHandler (st : List JVal) (rawName : String) :
    Resp × List JVal × List StoreOp :=
  let nm := jsTrim rawName
  let errs := searchErrors rawName
  if errs.isEmpty then
    match compile nm with
    | some r =>
      match st.find? (docNameMatch r) with
      | some d => (.okDoc d, st, [.findOne])
      | none => (.notFound, st, [.findOne])
    | none => (.serverErr, st, [])
  else (.badReq errs, st, [])

/-- `POST /pokemons`: after validation, the handler re-checks top-level
presence (`if (!id || !name || ...)`) and then saves the document built
from the five destructured fields. -/
def createHandler (st : List JVal) (b : JVal) :
    Resp × List JVal × List StoreOp :=
  let errs := createErrors b
  if errs.isEmpty then
    if truthy (getField b "id") && truthy (getField b "name") &&
        truthy (getField b "type") && truthy (getField b "base") &&
        truthy (getField b "image") then
      let doc : JVal := .jobj
        [("id", getField b "id"), ("name", getField b "name"),
         ("type", getField b "type"), ("base", getField b "base"),
         ("image", getField b "image")]
      (.created doc, st ++ [doc], [.save])
    else (.badReqMsg "Missing required fields", st, [])
  else (.badReq errs, st, [])

/-- Replace or insert one top-level field of an object document (`$set`). -/
def setFs : List (String × JVal) → String → JVal → List (String × JVal)
  | [], key, v => [(key, v)]
  | (k, w) :: rest, key, v =>
    if k = key then (key, v) :: rest else (k, w) :: setFs rest key v

def setField : JVal → String → JVal → JVal
  | .jobj fs, key, v => .jobj (setFs fs key v)
  | d, _, _ => d

/-- `...(name && { name })`: the field enters the update document only when
its value is truthy. -/
def maybeSet (doc : JVal) (key : String) (v : JVal) : JVal :=
  if truthy v then setField doc key v else doc

/-- The effect of the update document
`{...(name && {name}), ...(type && {type}), ...(base && {base}),
...(image && {image})}` on a matched document: whole-field `$set` of each
truthy field, in that order; `id` is never part of it. -/
def applyUpdate (d b : JVal) : JVal :=
  maybeSet
    (maybeSet
      (maybeSet
        (maybeSet d "name" (getField b "name"))
        "type" (getField b "type"))
      "base" (getField b "base"))
    "image" (getField b "image")

/-- Apply `f` to the first element satisfying `p` (what a single-document
`findOneAndUpdate` does to the collection). -/
def replaceFirst (p : JVal → Bool) (f : JVal → JVal) : List JVal → List JVal
  | [] => []
  | d :: rest => if p d then f d :: rest else d :: replaceFirst p f rest

/-- Remove the first element satisfying `p` (`findOneAndDelete`). -/
def removeFirst (p : JVal → Bool) : List JVal → List JVal
  | [] => []
  | d :: rest => if p d then rest else d :: removeFirst p rest

/-- `PUT /pokemons/:id` (`{ new: true }`: the updated document is
returned). -/
def updateHandler (st : List JVal) (idp : String) (b : JVal) :
    Resp × List JVal × List StoreOp :=
  let errs := updateErrors idp b
  if errs.isEmpty then
    match st.find? (idMatches idp) with
    | some d =>
      (.okDoc (applyUpdate d b),
       replaceFirst (idMatches idp) (fun x => applyUpdate x b) st,
       [.findOneAndUpdate])
    | none => (.notFound, st, [.findOneAndUpdate])
  else (.badReq errs, st, [])

/-- `DELETE /pokemons/:id`. -/
def deleteHandler (st : List JVal) (idp : String) :
    Resp × List JVal × List StoreOp :=
  let errs := idParamErrs idp
  if errs.isEmpty then
    match st.find? (idMatches idp) with
    | some d =>
      (.okDeleted "Pokemon deleted successfully" d,
       removeFirst (idMatches idp) st, [.findOneAndDelete])
    | none => (.notFound, st, [.findOneAndDelete])
  else (.badReq errs, st, [])

/-! ## Sample documents (for concrete instances) -/

def charmanderDoc : JVal := .jobj
  [("id", .jint 4),
   ("name", .jobj
     [("english", .jstr "Charmander"), ("japanese", .jstr "Hitokage"),
      ("chinese", .jstr "Xiaohuolong"), ("french", .jstr "Salameche")]),
   ("type", .jarr [.jstr "Fire"]),
   ("base", .jobj
     [("HP", .jint 39), ("Attack", .jint 52), ("Defense", .jint 43),
      ("SpecialAttack", .jint 60), ("SpecialDefense", .jint 50),
      ("Speed", .jint 65)]),
   ("image", .jstr "https://img.example.com/004.png")]

def pikachuDoc : JVal := .jobj
  [("id", .jint 25),
   ("name", .jobj
     [("english", .jstr "Pikachu"), ("french", .jstr "Pikachu")]),
   ("type", .jarr [.jstr "Electric"]),
   ("base", .jobj
     [("HP", .jint 35), ("Attack", .jint 55), ("Defense", .jint 40),
      ("SpecialAttack", .jint 50), ("SpecialDefense", .jint 50),
      ("Speed", .jint 90)]),
   ("image", .jstr "https://img.example.com/025.png")]

/-- A create body that is valid except possibly for its image string. -/
def sampleCreateBody (img : String) : JVal := .jobj
  [("id", .jint 25),
   ("name", .jobj [("english", .jstr "Pikachu")]),
   ("type", .jarr [.jstr "Electric"]),
   ("base", .jobj
     [("HP", .jint 35), ("Attack", .jint 55), ("Defense", .jint 40),
      ("SpecialAttack", .jint 50), ("SpecialDefense", .jint 50),
      ("Speed", .jint 90)]),
   ("image", .jstr img)]

/-! ## Spec-side search semantics

Written from the spec's words ("case-insensitive substring match against
`name.english` OR `name.french` OR `name.japanese`"), to be compared with
the handler's regex-based matching. -/

/-- Case-insensitive prefix test used to bridge the regex matcher and the
substring reading: does `cs` match the beginning of `ys` up to case? -/
def lcPrefix : List Char → List Char → Bool
  | [], _ => true
  | _ :: _, [] => false
  | c :: cs, y :: ys => (y.toLower == c.toLower) && lcPrefix cs ys

/-- Spec-side: case-insensitive substring — the lowercased pattern occurs
contiguously in the lowercased text. -/
def ciSubstr (pat s : String) : Bool :=
  decide ((pat.data.map Char.toLower) <:+: (s.data.map Char.toLower))

/-- Spec-side field match: only string values can contain the pattern. -/
def fieldCI (pat : String) : JVal → Bool
  | .jstr s => ciSubstr pat s
  | _ => false

/-- Spec-side document match: case-insensitive substring against the
english, french and japanese names only (`chinese` is never consulted). -/
def nameMatchesSpec (pat : String) (d : JVal) : Bool :=
  fieldCI pat (getPath d ["name", "english"]) ||
  fieldCI pat (getPath d ["name", "french"]) ||
  fieldCI pat (getPath d ["name", "japanese"])

/-! ## Helper lemmas -/

lemma isEmpty_false_of_ne_nil {l : List FieldError} (h : l ≠ []) :
    l.isEmpty = false := by
  cases l with
  | nil => exact absurd rfl h
  | cons a t => rfl

lemma errIf_eq_nil {c : Bool} {p m : String} : errIf c p m = [] ↔ c = false := by
  cases c <;> simp [errIf]

lemma getFieldFs_setFs_ne (fs : List (String × JVal)) (k : String) (v : JVal)
    (key : String) (h : k ≠ key) :
    getFieldFs (setFs fs k v) key = getFieldFs fs key := by
  induction fs with
  | nil => simp [setFs, getFieldFs, h]
  | cons p rest ih =>
    obtain ⟨k', w⟩ := p
    by_cases hk : k' = k
    · subst hk
      simp [setFs, getFieldFs, h]
    · by_cases hk2 : k' = key <;>
        simp [setFs, hk, getFieldFs, hk2, ih, Ne.symm h]

lemma getFieldFs_setFs_self (fs : List (String × JVal)) (k : String) (v : JVal) :
    getFieldFs (setFs fs k v) k = v := by
  induction fs with
  | nil => simp [setFs, getFieldFs]
  | cons p rest ih =>
    obtain ⟨k', w⟩ := p
    by_cases hk : k' = k <;> simp [setFs, hk, getFieldFs, ih]

lemma getField_setField_ne (d : JVal) (k : String) (v : JVal) (key : String)
    (h : k ≠ key) :
    getField (setField d k v) key = getField d key := by
  cases d <;> simp [setField, getField, getFieldFs_setFs_ne _ _ _ _ h]

lemma getField_maybeSet_ne (d : JVal) (k : String) (v : JVal) (key : String)
    (h : k ≠ key) :
    getField (maybeSet d k v) key = getField d key := by
  unfold maybeSet
  split
  · exact getField_setField_ne d k v key h
  · rfl

lemma maybeSet_obj (fs : List (String × JVal)) (k : String) (v : JVal) :
    ∃ fs', maybeSet (.jobj fs) k v = .jobj fs' := by
  unfold maybeSet
  split
  · exact ⟨setFs fs k v, rfl⟩
  · exact ⟨fs, rfl⟩

lemma getField_maybeSet_self (fs : List (String × JVal)) (k : String) (v : JVal) :
    getField (maybeSet (.jobj fs) k v) k =
      if truthy v = true then v else getField (.jobj fs) k := by
  unfold maybeSet
  split
  · next hv => simp [hv, setField, getField, getFieldFs_setFs_self]
  · next hv => simp at hv; simp [hv]

lemma replaceFirst_id (p : JVal → Bool) (f : JVal → JVal)
    (hf : ∀ x, f x = x) (l : List JVal) : replaceFirst p f l = l := by
  induction l with
  | nil => rfl
  | cons d rest ih => by_cases h : p d <;> simp [replaceFirst, h, hf, ih]

lemma map_replaceFirst {α : Type} (g : JVal → α) (p : JVal → Bool)
    (f : JVal → JVal) (hgf : ∀ x, g (f x) = g x) (l : List JVal) :
    (replaceFirst p f l).map g = l.map g := by
  induction l with
  | nil => rfl
  | cons d rest ih => by_cases h : p d <;> simp [replaceFirst, h, hgf, ih]

lemma find?_congr (p q : JVal → Bool) (h : ∀ x, p x = q x) (l : List JVal) :
    l.find? p = l.find? q := by
  induction l with
  | nil => rfl
  | cons d rest ih =>
    by_cases hd : p d
    · rw [List.find?_cons_of_pos _ hd, List.find?_cons_of_pos _ (h d ▸ hd)]
    · rw [List.find?_cons_of_neg _ hd, List.find?_cons_of_neg _ (h d ▸ hd), ih]

/-! ## Claims -/

/-- C6: for every request that violates one or more validation rules, the
response is a single structured 400 failure whose details are the full
collected list of violations (one entry per violated field rule — the
chains all run; nothing stops at the first violation). -/
theorem validation_lists_all_violations
    (st : List JVal) (b : JVal) (idp nm : String) (ps ls : Option String) :
    (createErrors b ≠ [] →
      createHandler st b = (.badReq (createErrors b), st, [])) ∧
    (updateErrors idp b ≠ [] →
      updateHandler st idp b = (.badReq (updateErrors idp b), st, [])) ∧
    (listErrors ps ls ≠ [] →
      listHandler st ps ls = (.badReq (listErrors ps ls), st, [])) ∧
    (idParamErrs idp ≠ [] →
      getHandler st idp = (.badReq (idParamErrs idp), st, [])) ∧
    (idParamErrs idp ≠ [] →
      deleteHandler st idp = (.badReq (idParamErrs idp), st, [])) ∧
    (searchErrors nm ≠ [] →
      searchHandler st nm = (.badReq (searchErrors nm), st, [])) := by
  refine ⟨fun h => ?_, fun h => ?_, fun h => ?_, fun h => ?_, fun h => ?_,
    fun h => ?_⟩ <;>
    simp [createHandler, updateHandler, listHandler, getHandler,
      deleteHandler, searchHandler, isEmpty_false_of_ne_nil h]

/-- Witness for C6: a list request violating both the page and the limit
rule is answered with a single 400 whose details list both violations. -/
theorem validation_lists_all_violations_witness :
    listErrors (some "abc") (some "0") =
      [⟨"page", "page must be >= 1"⟩,
       ⟨"limit", "limit must be between 1 and 100"⟩] ∧
    listHandler [] (some "abc") (some "0") =
      (.badReq
        [⟨"page", "page must be >= 1"⟩,
         ⟨"limit", "limit must be between 1 and 100"⟩], [], []) := by
  refine ⟨rfl, ?_⟩
  have h :=
    (validation_lists_all_violations [] .jnull "1" "x"
      (some "abc") (some "0")).2.2.1 (by decide)
  exact h.trans (by rfl)

/-- C7: a request rejected by the validation layer is answered 400 before
any store operation is issued: the handler performs no store call and the
store is unchanged, on all six routes. -/
theorem validation_short_circuits_store
    (st : List JVal) (b : JVal) (idp nm : String) (ps ls : Option String) :
    (createErrors b ≠ [] →
      (createHandler st b).2.1 = st ∧ (createHandler st b).2.2 = [] ∧
        (createHandler st b).1.status = 400) ∧
    (updateErrors idp b ≠ [] →
      (updateHandler st idp b).2.1 = st ∧ (updateHandler st idp b).2.2 = [] ∧
        (updateHandler st idp b).1.status = 400) ∧
    (listErrors ps ls ≠ [] →
      (listHandler st ps ls).2.1 = st ∧ (listHandler st ps ls).2.2 = [] ∧
        (listHandler st ps ls).1.status = 400) ∧
    (idParamErrs idp ≠ [] →
      (getHandler st idp).2.1 = st ∧ (getHandler st idp).2.2 = [] ∧
        (getHandler st idp).1.status = 400) ∧
    (idParamErrs idp ≠ [] →
      (deleteHandler st idp).2.1 = st ∧ (deleteHandler st idp).2.2 = [] ∧
        (deleteHandler st idp).1.status = 400) ∧
    (searchErrors nm ≠ [] →
      (searchHandler st nm).2.1 = st ∧ (searchHandler st nm).2.2 = [] ∧
        (searchHandler st nm).1.status = 400) := by
  refine ⟨fun h => ?_, fun h => ?_, fun h => ?_, fun h => ?_, fun h => ?_,
    fun h => ?_⟩ <;>
    simp [createHandler, updateHandler, listHandler, getHandler,
      deleteHandler, searchHandler, isEmpty_false_of_ne_nil h, Resp.status]

/-- Witness for C7: an invalid create body leaves the store untouched. -/
theorem validation_short_circuits_store_witness :
    (createHandler [pikachuDoc] (.jobj [])).2.1 = [pikachuDoc] ∧
    (createHandler [pikachuDoc] (.jobj [])).2.2 = [] ∧
    (createHandler [pikachuDoc] (.jobj [])).1.status = 400 :=
  (validation_short_circuits_store [pikachuDoc] (.jobj []) "1" "x"
    none none).1 (by decide)

/-- C8: the external `id` is immutable under update: the update document is
built only from `name`/`type`/`base`/`image`, so the updated record keeps
its `id` — even when the request body carries an `id` field — and the ids
of all stored documents are preserved by the update route. -/
theorem update_never_changes_id :
    (∀ d b : JVal, getField (applyUpdate d b) "id" = getField d "id") ∧
    (∀ (st : List JVal) (idp : String) (b : JVal),
      ((updateHandler st idp b).2.1).map (fun d => getField d "id") =
        st.map (fun d => getField d "id")) := by
  have h1 : ∀ d b : JVal, getField (applyUpdate d b) "id" = getField d "id" := by
    intro d b
    unfold applyUpdate
    rw [getField_maybeSet_ne _ _ _ _ (by decide),
      getField_maybeSet_ne _ _ _ _ (by decide),
      getField_maybeSet_ne _ _ _ _ (by decide),
      getField_maybeSet_ne _ _ _ _ (by decide)]
  refine ⟨h1, fun st idp b => ?_⟩
  unfold updateHandler
  by_cases he : (updateErrors idp b).isEmpty
  · simp only [he, if_true]
    cases hf : st.find? (idMatches idp) with
    | none => simp
    | some d =>
      simp only
      exact map_replaceFirst _ _ _ (fun x => h1 x b) st
  · simp [he]

/-! ### Update semantics (C2, C3, C10) -/

lemma applyUpdate_name (fs : List (String × JVal)) (b : JVal) :
    getField (applyUpdate (.jobj fs) b) "name" =
      if truthy (getField b "name") = true then getField b "name"
      else getField (.jobj fs) "name" := by
  unfold applyUpdate
  rw [getField_maybeSet_ne _ _ _ _ (by decide),
    getField_maybeSet_ne _ _ _ _ (by decide),
    getField_maybeSet_ne _ _ _ _ (by decide),
    getField_maybeSet_self]

lemma applyUpdate_type (fs : List (String × JVal)) (b : JVal) :
    getField (applyUpdate (.jobj fs) b) "type" =
      if truthy (getField b "type") = true then getField b "type"
      else getField (.jobj fs) "type" := by
  unfold applyUpdate
  obtain ⟨fs1, h1⟩ := maybeSet_obj fs "name" (getField b "name")
  rw [getField_maybeSet_ne _ _ _ _ (by decide),
    getField_maybeSet_ne _ _ _ _ (by decide), h1, getField_maybeSet_self,
    ← h1, getField_maybeSet_ne _ _ _ _ (by decide)]

lemma applyUpdate_base (fs : List (String × JVal)) (b : JVal) :
    getField (applyUpdate (.jobj fs) b) "base" =
      if truthy (getField b "base") = true then getField b "base"
      else getField (.jobj fs) "base" := by
  unfold applyUpdate
  obtain ⟨fs1, h1⟩ := maybeSet_obj fs "name" (getField b "name")
  obtain ⟨fs2, h2⟩ := maybeSet_obj fs1 "type" (getField b "type")
  rw [getField_maybeSet_ne _ _ _ _ (by decide), h1, h2,
    getField_maybeSet_self, ← h2, getField_maybeSet_ne _ _ _ _ (by decide),
    ← h1, getField_maybeSet_ne _ _ _ _ (by decide)]

lemma applyUpdate_image (fs : List (String × JVal)) (b : JVal) :
    getField (applyUpdate (.jobj fs) b) "image" =
      if truthy (getField b "image") = true then getField b "image"
      else getField (.jobj fs) "image" := by
  unfold applyUpdate
  obtain ⟨fs1, h1⟩ := maybeSet_obj fs "name" (getField b "name")
  obtain ⟨fs2, h2⟩ := maybeSet_obj fs1 "type" (getField b "type")
  obtain ⟨fs3, h3⟩ := maybeSet_obj fs2 "base" (getField b "base")
  rw [h1, h2, h3, getField_maybeSet_self, ← h3,
    getField_maybeSet_ne _ _ _ _ (by decide), ← h2,
    getField_maybeSet_ne _ _ _ _ (by decide), ← h1,
    getField_maybeSet_ne _ _ _ _ (by decide)]

/-- C3 counterexample: a valid update body that carries `name` explicitly
(as `null`) does not get its `name` field replaced — the handler only
applies truthy fields, so "replaces exactly the top-level fields present in
the body" fails: the response is the unchanged record. -/
theorem update_null_name_present_not_replaced :
    hasField (.jobj [("name", JVal.jnull)]) "name" = true ∧
    updateErrors "25" (.jobj [("name", JVal.jnull)]) = [] ∧
    updateHandler [pikachuDoc] "25" (.jobj [("name", JVal.jnull)]) =
      (.okDoc pikachuDoc, [pikachuDoc], [.findOneAndUpdate]) ∧
    getField (.jobj [("name", JVal.jnull)]) "name" = JVal.jnull ∧
    getField pikachuDoc "name" ≠ JVal.jnull := by
  refine ⟨rfl, rfl, rfl, rfl, ?_⟩
  simp [pikachuDoc, getField, getFieldFs]

/-- C3 (amended): for every record and every valid update body, the
handler replaces exactly the top-level fields supplied with truthy values
(whole-field replace — in particular `name` is replaced by the body's whole
`name` value, not merged), and any field absent or supplied with a falsy
value such as `null` is left unchanged. -/
theorem update_replaces_exactly_truthy_fields
    (st : List JVal) (idp : String) (b : JVal) (fs : List (String × JVal))
    (hval : updateErrors idp b = [])
    (hfind : st.find? (idMatches idp) = some (.jobj fs)) :
    updateHandler st idp b =
      (.okDoc (applyUpdate (.jobj fs) b),
       replaceFirst (idMatches idp) (fun x => applyUpdate x b) st,
       [.findOneAndUpdate]) ∧
    (getField (applyUpdate (.jobj fs) b) "name" =
      if truthy (getField b "name") = true then getField b "name"
      else getField (.jobj fs) "name") ∧
    (getField (applyUpdate (.jobj fs) b) "type" =
      if truthy (getField b "type") = true then getField b "type"
      else getField (.jobj fs) "type") ∧
    (getField (applyUpdate (.jobj fs) b) "base" =
      if truthy (getField b "base") = true then getField b "base"
      else getField (.jobj fs) "base") ∧
    (getField (applyUpdate (.jobj fs) b) "image" =
      if truthy (getField b "image") = true then getField b "image"
      else getField (.jobj fs) "image") := by
  refine ⟨?_, applyUpdate_name fs b, applyUpdate_type fs b,
    applyUpdate_base fs b, applyUpdate_image fs b⟩
  simp [updateHandler, hval, hfind]

/-- Witness for C3: updating Pikachu with a new `name` object replaces the
whole name mapping (the previous `french` entry is gone, not merged), and
leaves `type`, `base`, `image` unchanged. -/
theorem update_replaces_exactly_truthy_fields_witness :
    updateHandler [pikachuDoc] "25"
        (.jobj [("name", .jobj [("english", .jstr "Raichu")])]) =
      (.okDoc (.jobj
        [("id", .jint 25),
         ("name", .jobj [("english", .jstr "Raichu")]),
         ("type", .jarr [.jstr "Electric"]),
         ("base", .jobj
           [("HP", .jint 35), ("Attack", .jint 55), ("Defense", .jint 40),
            ("SpecialAttack", .jint 50), ("SpecialDefense", .jint 50),
            ("Speed", .jint 90)]),
         ("image", .jstr "https://img.example.com/025.png")]),
       [.jobj
         [("id", .jint 25),
          ("name", .jobj [("english", .jstr "Raichu")]),
          ("type", .jarr [.jstr "Electric"]),
          ("base", .jobj
            [("HP", .jint 35), ("Attack", .jint 55), ("Defense", .jint 40),
             ("SpecialAttack", .jint 50), ("SpecialDefense", .jint 50),
             ("Speed", .jint 90)]),
          ("image", .jstr "https://img.example.com/025.png")]],
       [.findOneAndUpdate]) := by
  have h := (update_replaces_exactly_truthy_fields [pikachuDoc] "25"
    (.jobj [("name", .jobj [("english", .jstr "Raichu")])])
    [("id", .jint 25),
     ("name", .jobj [("english", .jstr "Pikachu"), ("french", .jstr "Pikachu")]),
     ("type", .jarr [.jstr "Electric"]),
     ("base", .jobj
       [("HP", .jint 35), ("Attack", .jint 55), ("Defense", .jint 40),
        ("SpecialAttack", .jint 50), ("SpecialDefense", .jint 50),
        ("Speed", .jint 90)]),
     ("image", .jstr "https://img.example.com/025.png")] rfl rfl).1
  exact h.trans (by rfl)

/-- C10 counterexample: an update body supplying `type: null` is rejected
with 400 by the validation layer (the `type` validator is not skipped for
`null`), not answered 200 with the record unchanged. -/
theorem update_null_type_rejected_400 :
    updateErrors "25" (.jobj [("type", JVal.jnull)]) =
      [⟨"type", "Invalid value"⟩] ∧
    updateHandler [pikachuDoc] "25" (.jobj [("type", JVal.jnull)]) =
      (.badReq [⟨"type", "Invalid value"⟩], [pikachuDoc], []) ∧
    (updateHandler [pikachuDoc] "25" (.jobj [("type", JVal.jnull)])).1.status
      = 400 :=
  ⟨rfl, rfl, rfl⟩

/-- C10 (amended): the update handler applies a field only when truthy, so
`name: null` and `base: null` (whose validators address nested paths and
are skipped) yield 200 with the record unchanged; but `type: null` and
`image: null` are rejected 400 by their own validators (which do not skip
`null`), the store being unchanged either way. -/
theorem update_falsy_fields_ignored
    (st : List JVal) (idp : String) (d : JVal)
    (hidp : chkIdStr idp = true)
    (hfind : st.find? (idMatches idp) = some d) :
    updateHandler st idp (.jobj [("name", JVal.jnull)]) =
      (.okDoc d, st, [.findOneAndUpdate]) ∧
    updateHandler st idp (.jobj [("base", JVal.jnull)]) =
      (.okDoc d, st, [.findOneAndUpdate]) ∧
    (updateHandler st idp (.jobj [("type", JVal.jnull)])).1 =
      .badReq [⟨"type", "Invalid value"⟩] ∧
    (updateHandler st idp (.jobj [("type", JVal.jnull)])).2.1 = st ∧
    (updateHandler st idp (.jobj [("image", JVal.jnull)])).1 =
      .badReq [⟨"image", "Invalid value"⟩] ∧
    (updateHandler st idp (.jobj [("image", JVal.jnull)])).2.1 = st := by
  have hn : updateErrors idp (.jobj [("name", JVal.jnull)]) = [] := by
    have h0 : updateErrors idp (.jobj [("name", JVal.jnull)]) =
        errIf (!chkIdStr idp) "id" "id must be a positive integer" ++ [] := rfl
    rw [h0, hidp]; rfl
  have hb : updateErrors idp (.jobj [("base", JVal.jnull)]) = [] := by
    have h0 : updateErrors idp (.jobj [("base", JVal.jnull)]) =
        errIf (!chkIdStr idp) "id" "id must be a positive integer" ++ [] := rfl
    rw [h0, hidp]; rfl
  have ht : updateErrors idp (.jobj [("type", JVal.jnull)]) =
      [⟨"type", "Invalid value"⟩] := by
    have h0 : updateErrors idp (.jobj [("type", JVal.jnull)]) =
        errIf (!chkIdStr idp) "id" "id must be a positive integer" ++
          [⟨"type", "Invalid value"⟩] := rfl
    rw [h0, hidp]; rfl
  have hi : updateErrors idp (.jobj [("image", JVal.jnull)]) =
      [⟨"image", "Invalid value"⟩] := by
    have h0 : updateErrors idp (.jobj [("image", JVal.jnull)]) =
        errIf (!chkIdStr idp) "id" "id must be a positive integer" ++
          [⟨"image", "Invalid value"⟩] := rfl
    rw [h0, hidp]; rfl
  have han : ∀ x, applyUpdate x (.jobj [("name", JVal.jnull)]) = x :=
    fun x => rfl
  have hab : ∀ x, applyUpdate x (.jobj [("base", JVal.jnull)]) = x :=
    fun x => rfl
  have hrf : ∀ (p : JVal → Bool) (l : List JVal),
      replaceFirst p (fun x => x) l = l :=
    fun p l => replaceFirst_id p _ (fun _ => rfl) l
  refine ⟨?_, ?_, ?_, ?_, ?_, ?_⟩ <;>
    simp [updateHandler, hn, hb, ht, hi, hfind, han, hab, hrf]

/-- Witness for C10 at a concrete store. -/
theorem update_falsy_fields_ignored_witness :
    updateHandler [pikachuDoc] "25" (.jobj [("name", JVal.jnull)]) =
      (.okDoc pikachuDoc, [pikachuDoc], [.findOneAndUpdate]) ∧
    updateHandler [pikachuDoc] "25" (.jobj [("base", JVal.jnull)]) =
      (.okDoc pikachuDoc, [pikachuDoc], [.findOneAndUpdate]) ∧
    (updateHandler [pikachuDoc] "25" (.jobj [("type", JVal.jnull)])).1 =
      .badReq [⟨"type", "Invalid value"⟩] ∧
    (updateHandler [pikachuDoc] "25" (.jobj [("type", JVal.jnull)])).2.1 =
      [pikachuDoc] ∧
    (updateHandler [pikachuDoc] "25" (.jobj [("image", JVal.jnull)])).1 =
      .badReq [⟨"image", "Invalid value"⟩] ∧
    (updateHandler [pikachuDoc] "25" (.jobj [("image", JVal.jnull)])).2.1 =
      [pikachuDoc] :=
  update_falsy_fields_ignored [pikachuDoc] "25" pikachuDoc (by decide) rfl

/-- C2 counterexample: the update route accepts an image value that is not
a syntactically valid URL (its validator only requires a non-empty trimmed
string), which the create route rejects. -/
theorem update_accepts_non_url_image :
    updateErrors "1" (.jobj [("image", .jstr "not a url")]) = [] ∧
    isURL "not a url" = false ∧
    createErrors (sampleCreateBody "not a url") =
      [⟨"image", "image must be a valid URL"⟩] :=
  ⟨rfl, rfl, rfl⟩

/-- C2 (amended): update enforces the same per-field constraints as create
with every field optional (`optErr` behaves exactly as the corresponding
required check on supplied values and skips absent ones) for all fields
except `image`: a supplied image is accepted on update iff it is non-empty
after trimming, while create requires a syntactically valid URL. -/
theorem update_field_rules_vs_create
    (v : JVal) (hv : v ≠ .jundefined) (chk : JVal → Bool) (p m : String)
    (s : String) :
    optErr v chk p m = reqErr v chk p m ∧
    optErr .jundefined chk p m = [] ∧
    (updateErrors "1" (.jobj [("image", .jstr s)]) = [] ↔
      1 ≤ (jsTrim s).length) ∧
    (createErrors (sampleCreateBody s) = [] ↔ isURL s = true) := by
  refine ⟨?_, rfl, ?_, ?_⟩
  · cases v <;> first | rfl | exact absurd rfl hv
  · have h0 : updateErrors "1" (.jobj [("image", .jstr s)]) =
        errIf (!chkImageUpdate (.jstr s)) "image" "Invalid value" := rfl
    rw [h0, errIf_eq_nil]
    simp [chkImageUpdate, jsToString, jsToString0]
  · have h0 : createErrors (sampleCreateBody s) =
        errIf (!chkImageCreate (.jstr s)) "image"
          "image must be a valid URL" := rfl
    rw [h0, errIf_eq_nil]
    simp [chkImageCreate, jsToString, jsToString0]

/-- Witness for C2: concrete instance at `s = "x"` (non-empty non-URL). -/
theorem update_field_rules_vs_create_witness :
    (optErr JVal.jnull chkTypeArr "type" "Invalid value" =
      reqErr JVal.jnull chkTypeArr "type" "Invalid value") ∧
    optErr JVal.jundefined chkTypeArr "type" "Invalid value" = [] ∧
    (updateErrors "1" (.jobj [("image", .jstr "x")]) = [] ↔
      1 ≤ (jsTrim "x").length) ∧
    (createErrors (sampleCreateBody "x") = [] ↔ isURL "x" = true) :=
  update_field_rules_vs_create JVal.jnull (fun h => JVal.noConfusion h)
    chkTypeArr "type" "Invalid value" "x"

/-! ### Pagination (C4, C5) -/

lemma errIf_not_eq_nil {c : Bool} {p m : String} :
    errIf (!c) p m = [] ↔ c = true := by
  cases c <;> simp [errIf]

lemma digit_not_ws (c : Char) (h : c.isDigit = true) :
    c.isWhitespace = false := by
  by_contra hw
  rw [Bool.not_eq_false] at hw
  have h4 : ((c = ' ' ∨ c = '\t') ∨ c = '\r') ∨ c = '\n' := by
    simpa [Char.isWhitespace] using hw
  rcases h4 with ((h1 | h1) | h1) | h1 <;> subst h1 <;>
    exact absurd h (by decide)

lemma takeWhile_all_eq {p : Char → Bool} {l : List Char}
    (h : l.all p = true) : l.takeWhile p = l := by
  induction l with
  | nil => rfl
  | cons c cs ih =>
    simp only [List.all_cons, Bool.and_eq_true] at h
    simp [List.takeWhile_cons, h.1, ih h.2]

/-- When validation has certified a string with `isInt`, the handler's
`parseInt` reads the same value. -/
lemma jsParseInt_of_isIntStr (s : String) (n : Int)
    (h : isIntStr s = some n) : jsParseInt s = some n := by
  have hds : ¬(parseSign s.data).2.isEmpty = true ∧
      (parseSign s.data).2.all Char.isDigit = true ∧
      (parseSign s.data).1 * digitsVal (parseSign s.data).2 = n := by
    by_cases h1 : (parseSign s.data).2.isEmpty
    · simp [isIntStr, h1] at h
    · by_cases h2 : (parseSign s.data).2.all Char.isDigit
      · simp [isIntStr, h1, h2] at h
        exact ⟨h1, h2, h⟩
      · simp [isIntStr, h1, h2] at h
  obtain ⟨h1, h2, h3⟩ := hds
  have hdw : s.data.dropWhile Char.isWhitespace = s.data := by
    cases hsd : s.data with
    | nil => rw [hsd] at h1; simp [parseSign] at h1
    | cons c cs =>
      have hcw : c.isWhitespace = false := by
        by_cases hc : c = '-'
        · subst hc; decide
        · by_cases hc2 : c = '+'
          · subst hc2; decide
          · have hp : parseSign (c :: cs) = (1, c :: cs) := by
              simp [parseSign, hc, hc2]
            rw [hsd, hp] at h2
            simp only [List.all_cons, Bool.and_eq_true] at h2
            exact digit_not_ws c h2.1
      simp [List.dropWhile_cons, hcw]
  simp [jsParseInt, hdw, takeWhile_all_eq h2, h1, h3]

/-- `Math.ceil(total/limit)` really is the rational ceiling. -/
lemma mathCeilDiv_eq_ceil (t : Nat) (l : Int) (hl : 1 ≤ l) :
    mathCeilDiv (t : Int) l = ⌈(t : ℚ) / (l : ℚ)⌉ := by
  have hl0 : (0 : Int) < l := by omega
  have hlQ : (0 : ℚ) < (l : ℚ) := by exact_mod_cast hl0
  simp only [mathCeilDiv]
  have hdm := Int.ediv_add_emod ((t : Int) + l - 1) l
  have hr0 := Int.emod_nonneg ((t : Int) + l - 1) (by omega : l ≠ 0)
  have hrl := Int.emod_lt_of_pos ((t : Int) + l - 1) hl0
  set q := ((t : Int) + l - 1) / l with hq
  set r := ((t : Int) + l - 1) % l with hr
  have h1 : (t : Int) ≤ q * l := by linarith
  have h2 : (q - 1) * l < (t : Int) := by linarith
  have hgoal : ⌈(t : ℚ) / (l : ℚ)⌉ = q := by
    rw [Int.ceil_eq_iff]
    constructor
    · rw [lt_div_iff₀ hlQ]
      exact_mod_cast h2
    · rw [div_le_iff₀ hlQ]
      exact_mod_cast h1
  exact hgoal.symm

/-- C4: with a valid page and limit, the list handler skips exactly
`(page-1)*limit` documents, returns at most `limit` of them, and reports
`{currentPage, totalPages, totalPokemons, pokemonsPerPage}` with
`totalPages = ⌈total/limit⌉`. -/
theorem list_pagination_correct
    (st : List JVal) (ps ls : String) (p l : Int)
    (hp : isIntStr ps = some p) (hl : isIntStr ls = some l)
    (hp1 : 1 ≤ p) (hl1 : 1 ≤ l) (hl2 : l ≤ 100) :
    listHandler st (some ps) (some ls) =
      (.okList ((st.drop ((p - 1) * l).toNat).take l.toNat)
        ⟨p, mathCeilDiv st.length l, st.length, l⟩,
       st, [.find, .countDocuments]) ∧
    ((st.drop ((p - 1) * l).toNat).take l.toNat).length ≤ l.toNat ∧
    mathCeilDiv st.length l = ⌈(st.length : ℚ) / (l : ℚ)⌉ := by
  have herr : listErrors (some ps) (some ls) = [] := by
    simp [listErrors, pageErrs, limitErrs, errIf, chkPageStr, chkLimitStr,
      hp, hl, hp1, hl1, hl2]
  have hjp := jsParseInt_of_isIntStr ps p hp
  have hjl := jsParseInt_of_isIntStr ls l hl
  have hp0 : ¬ p = 0 := by omega
  have hl0 : ¬ l = 0 := by omega
  refine ⟨?_, ?_, mathCeilDiv_eq_ceil st.length l hl1⟩
  · simp [listHandler, herr, hjp, hjl, jsOr, hp0, hl0]
  · rw [List.length_take]
    exact Nat.min_le_left _ _

/-- Witness for C4: page 2 of 3 documents with limit 2. -/
theorem list_pagination_correct_witness :
    listHandler [charmanderDoc, pikachuDoc, pikachuDoc]
        (some "2") (some "2") =
      (.okList [pikachuDoc] ⟨2, 2, 3, 2⟩,
       [charmanderDoc, pikachuDoc, pikachuDoc],
       [.find, .countDocuments]) := by
  have h := (list_pagination_correct [charmanderDoc, pikachuDoc, pikachuDoc]
    "2" "2" 2 2 rfl rfl (by decide) (by decide) (by decide)).1
  exact h.trans (by rfl)

/-- C5: `page` and `limit` are optional with defaults 1 and 20; a supplied
page is accepted iff it is an integer ≥ 1 and a supplied limit iff it is an
integer in [1,100]; in particular `limit=0` is rejected with a 400. -/
theorem list_param_defaults (st : List JVal) :
    listHandler st none none =
      (.okList (st.take 20) ⟨1, mathCeilDiv st.length 20, st.length, 20⟩,
       st, [.find, .countDocuments]) ∧
    (∀ s : String, pageErrs (some s) = [] ↔
      ∃ n : Int, isIntStr s = some n ∧ 1 ≤ n) ∧
    (∀ s : String, limitErrs (some s) = [] ↔
      ∃ n : Int, isIntStr s = some n ∧ 1 ≤ n ∧ n ≤ 100) ∧
    listHandler st none (some "0") =
      (.badReq [⟨"limit", "limit must be between 1 and 100"⟩], st, []) := by
  refine ⟨rfl, ?_, ?_, rfl⟩
  · intro s
    simp only [pageErrs, errIf_not_eq_nil]
    cases hm : isIntStr s with
    | none => simp [chkPageStr, hm]
    | some n => simp [chkPageStr, hm]
  · intro s
    simp only [limitErrs, errIf_not_eq_nil]
    cases hm : isIntStr s with
    | none => simp [chkLimitStr, hm]
    | some n => simp [chkLimitStr, hm, and_assoc]

/-! ### Search (C1, C9) -/

lemma plain_ne (c : Char) (hc : isPlainChar c = true) :
    ¬c = '\\' ∧ ¬c = '^' ∧ ¬c = '$' ∧ ¬c = '.' ∧ ¬c = '|' ∧ ¬c = '?' ∧
    ¬c = '*' ∧ ¬c = '+' ∧ ¬c = '(' ∧ ¬c = ')' ∧ ¬c = '[' ∧ ¬c = ']' ∧
    ¬c = '{' ∧ ¬c = '}' := by
  simpa [isPlainChar, regexSpecials, not_or] using hc

lemma drop_succ_of_drop_cons {s : List Char} {i : Nat} {x : Char}
    {t : List Char} (h : s.drop i = x :: t) : s.drop (i + 1) = t := by
  rw [← List.tail_drop, h]
  rfl

/-- A pure-literal regex matches exactly a case-insensitive prefix of the
remaining input. -/
lemma mat_mkSeq_chr (s : List Char) (cs : List Char) (i : Nat)
    (k : Nat → Bool) :
    mat s (mkSeq (cs.map Re.chr)) i k =
      (lcPrefix cs (s.drop i) && k (i + cs.length)) := by
  induction cs generalizing i with
  | nil => simp [mkSeq, mat, lcPrefix]
  | cons c cs ih =>
    show mat s (Re.cat (Re.chr c) (mkSeq (cs.map Re.chr))) i k = _
    cases hd : s.drop i with
    | nil => simp [mat, hd, lcPrefix]
    | cons x t =>
      have ht := drop_succ_of_drop_cons hd
      have ha : i + 1 + cs.length = i + (cs.length + 1) := by omega
      simp only [mat, hd, List.head?_cons, ih, ht, ha, lcPrefix,
        List.length_cons, Bool.and_assoc]

lemma parseAtom_plain (f : Nat) (c : Char) (rest : List Char)
    (hc : isPlainChar c = true) :
    parseAtom (f + 1) (c :: rest) = some (Re.chr c, rest) := by
  obtain ⟨h1, h2, h3, h4, h5, h6, h7, h8, h9, h10, h11, h12, h13, h14⟩ :=
    plain_ne c hc
  simp [parseAtom, h1, h2, h3, h4, h5, h6, h7, h8, h9, h10, h11]

lemma parsePieces_plain (cs : List Char) : ∀ fuel : Nat,
    cs.length < fuel → (∀ c ∈ cs, isPlainChar c = true) →
    parsePieces fuel cs = some (cs.map Re.chr, []) := by
  induction cs with
  | nil =>
    intro fuel hf _
    cases fuel with
    | zero => omega
    | succ f => simp [parsePieces]
  | cons c rest ih =>
    intro fuel hf hall
    have hc := hall c (by simp)
    obtain ⟨h1, h2, h3, h4, h5, h6, h7, h8, h9, h10, h11, h12, h13, h14⟩ :=
      plain_ne c hc
    cases fuel with
    | zero => exact absurd hf (Nat.not_lt_zero _)
    | succ f =>
      cases f with
      | zero =>
        exfalso
        simp only [List.length_cons] at hf
        omega
      | succ f2 =>
        have hq : applyQuant (Re.chr c) rest = (Re.chr c, rest) := by
          cases rest with
          | nil => rfl
          | cons d r2 =>
            obtain ⟨g1, g2, g3, g4, g5, g6, g7, g8, g9, g10, g11, g12,
              g13, g14⟩ := plain_ne d (hall d (by simp))
            simp [applyQuant, g6, g7, g8]
        have hrest : parsePieces (f2 + 1) rest = some (rest.map Re.chr, []) := by
          refine ih (f2 + 1) ?_ (fun x hx => hall x (by simp [hx]))
          simp only [List.length_cons] at hf
          omega
        rw [parsePieces]
        rw [if_neg (by simp [h10, h5])]
        rw [parseAtom_plain f2 c rest hc]
        simp [hq, hrest]

lemma parseAlt_plain (cs : List Char) (fuel : Nat)
    (hf : cs.length + 1 < fuel) (hall : ∀ c ∈ cs, isPlainChar c = true) :
    parseAlt fuel cs = some (mkSeq (cs.map Re.chr), []) := by
  cases fuel with
  | zero => omega
  | succ f =>
    have hp := parsePieces_plain cs f (by omega) hall
    have hstep : parseAlt (f + 1) cs =
        match parsePieces f cs with
        | none => none
        | some (rs, rest) =>
          match rest with
          | '|' :: r2 =>
            match parseAlt f r2 with
            | some (r2', rest2) => some (Re.alt (mkSeq rs) r2', rest2)
            | none => none
          | _ => some (mkSeq rs, rest) := rfl
    rw [hstep, hp]

/-- A name consisting only of non-special characters compiles to the plain
literal chain. -/
lemma compile_plain (s : String)
    (hall : ∀ c ∈ s.data, isPlainChar c = true) :
    compile s = some (mkSeq (s.data.map Re.chr)) := by
  have hlen : s.length = s.data.length := rfl
  have hp := parseAlt_plain s.data (2 * s.length + 2)
    (by rw [hlen]; omega) hall
  have hstep : compile s =
      match parseAlt (2 * s.length + 2) s.data with
      | some (r, []) => some r
      | _ => none := rfl
  rw [hstep, hp]

lemma regexTest_mkSeq (cs : List Char) (s : String) :
    regexTest (mkSeq (cs.map Re.chr)) s =
      ((List.range (s.data.length + 1)).any
        fun i => lcPrefix cs (s.data.drop i)) := by
  simp only [regexTest, mat_mkSeq_chr, Bool.and_true]

lemma lcPrefix_iff (cs : List Char) : ∀ ys : List Char,
    (lcPrefix cs ys = true ↔
      (cs.map Char.toLower) <+: (ys.map Char.toLower)) := by
  induction cs with
  | nil => intro ys; simp [lcPrefix]
  | cons c cs ih =>
    intro ys
    cases ys with
    | nil => simp [lcPrefix]
    | cons y ys =>
      rw [show lcPrefix (c :: cs) (y :: ys) =
          ((y.toLower == c.toLower) && lcPrefix cs ys) from rfl]
      rw [List.map_cons, List.map_cons, List.cons_prefix_cons,
        Bool.and_eq_true, beq_iff_eq, ih ys]
      constructor
      · rintro ⟨ha, hb⟩; exact ⟨ha.symm, hb⟩
      · rintro ⟨ha, hb⟩; exact ⟨ha.symm, hb⟩

lemma anyPrefix_iff_substring (cs xs : List Char) :
    (((List.range (xs.length + 1)).any
        fun i => lcPrefix cs (xs.drop i)) = true) ↔
      (cs.map Char.toLower) <:+: (xs.map Char.toLower) := by
  rw [List.any_eq_true]
  constructor
  · rintro ⟨i, hi, hp⟩
    rw [lcPrefix_iff] at hp
    rw [List.infix_iff_prefix_suffix]
    refine ⟨(xs.map Char.toLower).drop i, ?_, List.drop_suffix i _⟩
    rwa [List.map_drop] at hp
  · intro hinf
    rw [List.infix_iff_prefix_suffix] at hinf
    obtain ⟨t, hpre, hsuf⟩ := hinf
    obtain ⟨pre, hpre2⟩ := hsuf
    refine ⟨pre.length, ?_, ?_⟩
    · rw [List.mem_range]
      have hlen : pre.length + t.length = xs.length := by
        have := congrArg List.length hpre2
        simpa using this
      omega
    · rw [lcPrefix_iff, List.map_drop]
      have hdrop : (xs.map Char.toLower).drop pre.length = t := by
        rw [← hpre2, List.drop_left]
      rw [hdrop]
      exact hpre

/-- On literal patterns, the handler's regex test is exactly the spec's
case-insensitive substring test. -/
lemma regexTest_lits (pat s : String) :
    regexTest (mkSeq (pat.data.map Re.chr)) s = ciSubstr pat s := by
  rw [regexTest_mkSeq, ciSubstr]
  by_cases hd : (pat.data.map Char.toLower) <:+: (s.data.map Char.toLower)
  · rw [decide_eq_true hd]
    exact (anyPrefix_iff_substring pat.data s.data).mpr hd
  · rw [decide_eq_false hd]
    exact Bool.eq_false_iff.mpr
      (fun hh => hd ((anyPrefix_iff_substring pat.data s.data).mp hh))

lemma fieldTestRe_lits (pat : String) (v : JVal) :
    fieldTestRe (mkSeq (pat.data.map Re.chr)) v = fieldCI pat v := by
  cases v <;> simp [fieldTestRe, fieldCI, regexTest_lits]

lemma docNameMatch_lits (pat : String) (d : JVal) :
    docNameMatch (mkSeq (pat.data.map Re.chr)) d = nameMatchesSpec pat d := by
  simp [docNameMatch, nameMatchesSpec, fieldTestRe_lits]

/-- C1 (amended): for a trimmed name of length 1–50 containing no regex
metacharacters, the search handler performs exactly the spec's
case-insensitive substring match against `name.english`, `name.french` and
`name.japanese` (never `name.chinese`), returning the first matching
document with 200 and a 404 when none matches. -/
theorem search_matches_ci_substring
    (st : List JVal) (name : String)
    (h1 : 1 ≤ (jsTrim name).length) (h2 : (jsTrim name).length ≤ 50)
    (h3 : ∀ c ∈ (jsTrim name).data, isPlainChar c = true) :
    (∀ d, st.find? (nameMatchesSpec (jsTrim name)) = some d →
      searchHandler st name = (.okDoc d, st, [.findOne])) ∧
    (st.find? (nameMatchesSpec (jsTrim name)) = none →
      searchHandler st name = (.notFound, st, [.findOne])) := by
  have herr : searchErrors name = [] := by
    simp [searchErrors, errIf, h1, h2]
  have hcomp := compile_plain (jsTrim name) h3
  have hcong := find?_congr
    (docNameMatch (mkSeq ((jsTrim name).data.map Re.chr)))
    (nameMatchesSpec (jsTrim name)) (docNameMatch_lits (jsTrim name)) st
  constructor
  · intro d hd
    simp [searchHandler, herr, hcomp, hcong, hd]
  · intro hd
    simp [searchHandler, herr, hcomp, hcong, hd]

/-- Witness for C1: searching `"char"` finds the record whose
`name.english` is `"Charmander"` with a 200. -/
theorem search_matches_ci_substring_witness :
    searchHandler [charmanderDoc] "char" =
      (.okDoc charmanderDoc, [charmanderDoc], [.findOne]) :=
  (search_matches_ci_substring [charmanderDoc] "char"
    (by decide) (by decide) (by decide)).1 charmanderDoc (by rfl)

/-- C1 counterexample: for the valid trimmed name `"."` the handler does
not perform a substring match — it returns 200 with a record none of whose
searched names contains `"."` as a substring (the dot is interpreted as the
regex wildcard). -/
theorem search_dot_not_substring :
    (jsTrim ".").length = 1 ∧
    searchHandler [charmanderDoc] "." =
      (.okDoc charmanderDoc, [charmanderDoc], [.findOne]) ∧
    nameMatchesSpec (jsTrim ".") charmanderDoc = false :=
  ⟨rfl, rfl, rfl⟩

/-- C9: the raw path parameter is embedded unescaped in `new RegExp`: the
length-1 name `"("` is not a syntactically valid regex, so the handler
throws and answers 500 (no store call), while the valid-regex name `"."`
is interpreted as a wildcard rather than matched literally (it matches
`"Charmander"`, which contains no literal dot). -/
theorem search_regex_injection :
    (jsTrim "(").length = 1 ∧
    compile (jsTrim "(") = none ∧
    searchHandler [charmanderDoc] "(" = (.serverErr, [charmanderDoc], []) ∧
    (searchHandler [charmanderDoc] "(").1.status = 500 ∧
    searchHandler [charmanderDoc] "." =
      (.okDoc charmanderDoc, [charmanderDoc], [.findOne]) ∧
    ciSubstr "." "Charmander" = false :=
  ⟨rfl, rfl, rfl, rfl, rfl, rfl⟩

end PokeApi
